import Mathlib

/-!
Shallow embedding of the Cypress support helpers in
`cypress/support/commands.ts`, restricted to the parts the verified claims
are about: the order-verification helper `assertSortedByKey` (built on
lodash `orderBy` and `isEqual`), and the in-memory token cache used by
`loginUser`, `getCurrentUser` and `refreshSession`.

The JavaScript value domain is modelled by `JVal` (strings, numbers,
booleans, null); records are association lists from field names to values.
JavaScript numbers are modelled as integers (the repository only ever
sorts on integer ids and string fields; `none` in `toNumber` plays the
role of NaN). String comparison uses code-unit lexicographic order, which
for the basic multilingual plane coincides with codepoint order used here.
-/

/-- JavaScript primitive values as they occur in the records under test. -/
inductive JVal where
  | str (s : String)
  | num (n : Int)
  | bool (b : Bool)
  | null
deriving DecidableEq, Repr

/-- A record is an association list from field names to values; lookup
takes the first binding, matching JavaScript object access. -/
abbrev Record := List (String × JVal)

/-- Field access `o[key]`: `none` models an absent field (undefined). -/
def getField (r : Record) (k : String) : Option JVal :=
  match r with
  | [] => none
  | (k1, v) :: rest => if k1 = k then some v else getField rest k

/-- Lowercasing a string character by character, modelling
`String.prototype.toLocaleLowerCase` on the ASCII data in the suite. -/
def jsToLower (s : String) : String :=
  ⟨s.data.map Char.toLower⟩

/-- The `norm` closure of `assertSortedByKey` (commands.ts lines 241-245):
null or undefined becomes the empty string, strings are lowercased, and
every other value passes through unchanged. -/
def norm : Option JVal → JVal
  | none => .str ""
  | some .null => .str ""
  | some (.str s) => .str (jsToLower s)
  | some (.num n) => .num n
  | some (.bool b) => .bool b

/-- The tie-break iteratee `(o) => o.id ?? 0` (commands.ts line 250):
nullish coalescing maps an absent or null id to the number 0. -/
def idVal (r : Record) : JVal :=
  match getField r "id" with
  | none => .num 0
  | some .null => .num 0
  | some v => v

/-- JavaScript whitespace characters stripped by ToNumber (restricted to
the usual ASCII ones). -/
def isJsWhitespace (c : Char) : Bool :=
  c = ' ' || c = '\t' || c = '\n' || c = '\r'

/-- Strip leading and trailing whitespace from a character list. -/
def trimChars (l : List Char) : List Char :=
  ((l.dropWhile isJsWhitespace).reverse.dropWhile isJsWhitespace).reverse

/-- Value of an unsigned decimal digit string, `none` when not all digits
or empty. -/
def parseDigits (cs : List Char) : Option Nat :=
  if cs ≠ [] ∧ cs.all Char.isDigit then
    some (cs.foldl (fun n c => n * 10 + (c.toNat - 48)) 0)
  else none

/-- JavaScript ToNumber on strings, restricted to optionally signed
decimal integer literals (the only numeric strings in this suite):
the empty or all-whitespace string is 0, anything unparseable is NaN
(`none`). -/
def strToNum (s : String) : Option Int :=
  match trimChars s.data with
  | [] => some 0
  | '-' :: rest => (parseDigits rest).map (fun n => -(n : Int))
  | '+' :: rest => (parseDigits rest).map (fun n => (n : Int))
  | cs => (parseDigits cs).map (fun n => (n : Int))

/-- JavaScript ToNumber on the modelled value domain; `none` is NaN. -/
def toNumber : JVal → Option Int
  | .str s => strToNum s
  | .num n => some n
  | .bool b => some (if b then 1 else 0)
  | .null => some 0

/-- Code-unit lexicographic order on character lists, modelling the
JavaScript `<` operator on two strings. -/
def charListLt : List Char → List Char → Bool
  | [], [] => false
  | [], _ :: _ => true
  | _ :: _, [] => false
  | c :: cs, d :: ds => decide (c < d) || (decide (c = d) && charListLt cs ds)

/-- The JavaScript abstract relational comparison `v < w` on the modelled
domain: two strings compare lexicographically, any other pair is coerced
to numbers, and a NaN operand makes the comparison false. -/
def jsLt (v w : JVal) : Bool :=
  match v, w with
  | .str s, .str t => charListLt s.data t.data
  | v, w =>
    match toNumber v, toNumber w with
    | some a, some b => decide (a < b)
    | _, _ => false

/-- The lodash `compareAscending` on the modelled domain: strictly equal
values compare as 0, otherwise `v > w` gives 1, `v < w` gives -1, and two
incomparable values (a NaN coercion) give 0. -/
def compareAscending (v w : JVal) : Int :=
  if v = w then 0
  else if jsLt w v then 1
  else if jsLt v w then -1
  else 0

/-- The sort direction parameter of `assertSortedByKey`. -/
inductive SortOrder where
  | asc
  | desc
deriving DecidableEq, Repr

/-- The primary iteratee `(o) => norm(o[key])` (commands.ts line 249). -/
def primaryKey (key : String) (r : Record) : JVal :=
  norm (getField r key)

/-- The lodash `compareMultiple` specialised to the iteratees and orders
`[order, "asc"]` built on commands.ts lines 248-252: the direction is
applied to the primary comparison only, the id tie-break is always
ascending, and a full tie is broken by original array index, which makes
the overall sort stable. -/
def compareMultiple (key : String) (order : SortOrder) (a b : Nat × Record) : Int :=
  let r0 := compareAscending (primaryKey key a.2) (primaryKey key b.2)
  if r0 ≠ 0 then (if order = .desc then -r0 else r0)
  else
    let r1 := compareAscending (idVal a.2) (idVal b.2)
    if r1 ≠ 0 then r1
    else (a.1 : Int) - (b.1 : Int)

/-- Insert into a sorted list, passing over every element that compares
strictly below the new one; with a comparator that breaks full ties this
realises exactly the order lodash computes. -/
def insertBy (cmp : α → α → Int) (x : α) : List α → List α
  | [] => [x]
  | y :: ys => if cmp x y > 0 then y :: insertBy cmp x ys else x :: y :: ys

/-- Insertion sort by an integer comparator. -/
def sortBy (cmp : α → α → Int) : List α → List α
  | [] => []
  | x :: xs => insertBy cmp x (sortBy cmp xs)

/-- Pair every element with its original index starting at `n`, modelling
the index lodash attaches before sorting. -/
def enumFrom (n : Nat) : List α → List (Nat × α)
  | [] => []
  | x :: xs => (n, x) :: enumFrom (n + 1) xs

/-- `Cypress._.orderBy(array, iteratees, orders)` as called on
commands.ts line 254: sort a copy of the input by the composite
comparator (index tie-break included) and drop the indices. -/
def orderBy (key : String) (order : SortOrder) (arr : List Record) : List Record :=
  (sortBy (compareMultiple key order) (enumFrom 0 arr)).map Prod.snd

/-- Lodash `isEqual` on two records: the same fields are present and every
field looks up to the same value in both. -/
def deepEqual (r1 r2 : Record) : Bool :=
  (r1.all fun p => decide (getField r1 p.1 = getField r2 p.1)) &&
  (r2.all fun p => decide (getField r1 p.1 = getField r2 p.1))

/-- Element-for-element deep equality of two record lists, as used by the
`deep.equal` assertion on commands.ts line 260. -/
def listDeepEqual : List Record → List Record → Bool
  | [], [] => true
  | x :: xs, y :: ys => deepEqual x y && listDeepEqual xs ys
  | _, _ => false

/-- `array.findIndex((item, i) => !isEqual(item, sorted[i]))` from
commands.ts line 263: the lowest index where the input and the recomputed
order disagree, `none` when the scan finds no disagreement (findIndex
returned -1). Comparing against a missing element counts as a
disagreement, as `isEqual(item, undefined)` is false. -/
def firstMismatchIdx : List Record → List Record → Option Nat
  | [], _ => none
  | _ :: _, [] => some 0
  | x :: xs, y :: ys =>
    if deepEqual x y then (firstMismatchIdx xs ys).map (fun k => k + 1)
    else some 0

/-- Outcome of `assertSortedByKey`: whether the assertion passed, and on
failure the diagnostic (index, expected element, actual element) attached
by `Cypress.log` when the scan localises a mismatch. The failure is
rethrown whether or not a diagnostic was produced. -/
structure SortCheckResult where
  passed : Bool
  mismatch : Option (Nat × Record × Record)
deriving DecidableEq, Repr

/-- `assertSortedByKey` (commands.ts lines 235-279): recompute the
expected order with `orderBy`, pass when the input deep-equals it,
otherwise fail, attaching the first mismatching index together with the
expected and actual elements there when the scan finds one. -/
def assertSortedByKey (arr : List Record) (key : String) (order : SortOrder) :
    SortCheckResult :=
  let sorted := orderBy key order arr
  if listDeepEqual arr sorted then ⟨true, none⟩
  else
    match firstMismatchIdx arr sorted with
    | some i => ⟨false, some (i, sorted.getD i [], arr.getD i [])⟩
    | none => ⟨false, none⟩

/-- Follows the words of the spec, for comparison with `orderBy`: the
per-record comparator by normalized primary value in the given direction,
then id ascending. -/
def specCompare (key : String) (order : SortOrder) (a b : Record) : Int :=
  let r0 := compareAscending (primaryKey key a) (primaryKey key b)
  let d0 := if order = .desc then -r0 else r0
  if d0 ≠ 0 then d0 else compareAscending (idVal a) (idVal b)

/-- Follows the words of the spec, for comparison with `orderBy`: a
stable sort of the input by `specCompare` (insertion sort is stable:
an element moves past another only when it compares strictly below it). -/
def specStableSort (key : String) (order : SortOrder) (arr : List Record) :
    List Record :=
  sortBy (specCompare key order) arr

/-- HTTP method of a request descriptor built by a helper. -/
inductive Method where
  | GET
  | POST
deriving DecidableEq, Repr

/-- A request descriptor as the helpers build it: method, url, the
optional Authorization header, and the two body fields the auth helpers
send. Fields a helper does not set are `none`. -/
structure HttpRequest where
  method : Method
  url : String
  authHeader : Option String
  bodyRefreshToken : Option String
  bodyExpiresInMins : Option Int
deriving DecidableEq, Repr

/-- The process-wide token cache of commands.ts lines 114-115: two
module-level variables, each a string or null. -/
structure TokenState where
  accessToken : Option String
  refreshToken : Option String
deriving DecidableEq, Repr

/-- The cache at process start: `let accessToken = null` and
`let refreshToken = null`. -/
def initialTokenState : TokenState :=
  ⟨none, none⟩

/-- JavaScript falsiness of a nullable string: null, undefined and the
empty string are falsy. -/
def isFalsyStr : Option String → Bool
  | none => true
  | some s => s = ""

/-- `getCurrentUser` (commands.ts lines 137-153) up to the point the
request is issued: with a falsy cached access token it throws before
building any request, otherwise it builds the GET to `/auth/me` with the
bearer header. -/
def getCurrentUser (st : TokenState) : Except String HttpRequest :=
  if isFalsyStr st.accessToken then
    .error "No access token — call cy.loginUser() first"
  else
    .ok ⟨.GET, "/auth/me", some ("Bearer " ++ st.accessToken.getD ""), none, none⟩

/-- `refreshSession` (commands.ts lines 155-171) up to the point the
request is issued: `providedRefreshToken || refreshToken` picks the
provided token when truthy and otherwise falls back to the cached one,
throws when the result is still falsy, and otherwise builds the POST to
`/auth/refresh` carrying the chosen token and `expiresInMins` in the
body. -/
def refreshSessionRequest (st : TokenState) (providedRefreshToken : Option String)
    (expiresInMins : Int) : Except String HttpRequest :=
  let tokenToUse : Option String :=
    match providedRefreshToken with
    | some s => if s ≠ "" then some s else st.refreshToken
    | none => st.refreshToken
  if isFalsyStr tokenToUse then
    .error "No refresh token — call cy.loginUser() first"
  else
    .ok ⟨.POST, "/auth/refresh", none, tokenToUse, some expiresInMins⟩

/-- Whether an Except is the error case. -/
def isError : Except ε α → Bool
  | .error _ => true
  | .ok _ => false

/-- The operations of the suite as they act on the token cache: the
response handler of a successful `loginUser` (commands.ts lines 129-134)
and of a successful `refreshSession` (lines 172-177) store both tokens;
every other command only reads the cache. -/
inductive TokenOp where
  | loginSuccess (a r : String)
  | refreshSuccess (a r : String)
  | readOnly

/-- Effect of one operation on the token cache. -/
def applyTokenOp : TokenOp → TokenState → TokenState
  | .loginSuccess a r, _ => ⟨some a, some r⟩
  | .refreshSuccess a r, _ => ⟨some a, some r⟩
  | .readOnly, st => st

/-- `getProductByCategory` (commands.ts lines 297-303): the handler
ignores the category parameter declared on its interface (lines 99-103)
and always requests the fixed path. -/
def getProductByCategory (category : String) : HttpRequest :=
  ⟨.GET, "/products/category/smartphones", none, none, none⟩

theorem deepEqual_refl (r : Record) : deepEqual r r = true := by
  simp [deepEqual, List.all_eq_true]

theorem listDeepEqual_refl (l : List Record) : listDeepEqual l l = true := by
  induction l with
  | nil => rfl
  | cons x xs ih => simp [listDeepEqual, deepEqual_refl, ih]

/-- C6: the literal scenarios: Zeta before alpha fails ascending-by-title
with the mismatch reported at index 0; Banana before apple fails the
ascending-by-title assertion; apple before Banana passes it. -/
theorem concrete_sort_scenarios :
    (assertSortedByKey [[("id", JVal.num 1), ("title", JVal.str "Zeta")],
        [("id", JVal.num 2), ("title", JVal.str "alpha")]] "title" SortOrder.asc).passed = false
    ∧ (assertSortedByKey [[("id", JVal.num 1), ("title", JVal.str "Zeta")],
        [("id", JVal.num 2), ("title", JVal.str "alpha")]] "title" SortOrder.asc).mismatch =
        some (0, [("id", JVal.num 2), ("title", JVal.str "alpha")],
                 [("id", JVal.num 1), ("title", JVal.str "Zeta")])
    ∧ (assertSortedByKey [[("title", JVal.str "Banana")],
        [("title", JVal.str "apple")]] "title" SortOrder.asc).passed = false
    ∧ (assertSortedByKey [[("title", JVal.str "apple")],
        [("title", JVal.str "Banana")]] "title" SortOrder.asc).passed = true := by
  refine ⟨by decide, by decide, by decide, by decide⟩

/-- C7: with no cached access token, `getCurrentUser` raises the missing
credential error without building a request, and with no cached refresh
token, `refreshSession` called without an explicit token does the same. -/
theorem missing_credential_errors :
    (∀ st : TokenState, st.accessToken = none →
      getCurrentUser st = Except.error "No access token — call cy.loginUser() first")
    ∧ (∀ (st : TokenState) (e : Int), st.refreshToken = none →
      refreshSessionRequest st none e =
        Except.error "No refresh token — call cy.loginUser() first") := by
  constructor
  · intro st h
    simp [getCurrentUser, h, isFalsyStr]
  · intro st e h
    simp [refreshSessionRequest, h, isFalsyStr]

theorem missing_credential_errors_witness :
    getCurrentUser initialTokenState =
      Except.error "No access token — call cy.loginUser() first"
    ∧ refreshSessionRequest initialTokenState none 30 =
      Except.error "No refresh token — call cy.loginUser() first" :=
  ⟨missing_credential_errors.1 initialTokenState rfl,
   missing_credential_errors.2 initialTokenState 30 rfl⟩

/-- C8: the token cache lifecycle: both tokens are unset at process
start, a successful login sets both, a successful refresh overwrites
both, and no operation ever takes a set token back to unset. -/
theorem token_cache_lifecycle :
    initialTokenState.accessToken = none
    ∧ initialTokenState.refreshToken = none
    ∧ (∀ (st : TokenState) (a r : String),
        applyTokenOp (TokenOp.loginSuccess a r) st = ⟨some a, some r⟩)
    ∧ (∀ (st : TokenState) (a r : String),
        applyTokenOp (TokenOp.refreshSuccess a r) st = ⟨some a, some r⟩)
    ∧ (∀ (op : TokenOp) (st : TokenState),
        (applyTokenOp op st).accessToken = none → st.accessToken = none)
    ∧ (∀ (op : TokenOp) (st : TokenState),
        (applyTokenOp op st).refreshToken = none → st.refreshToken = none) := by
  refine ⟨rfl, rfl, fun _ _ _ => rfl, fun _ _ _ => rfl, ?_, ?_⟩ <;>
    intro op st h <;> cases op <;> simpa [applyTokenOp] using h

theorem token_cache_lifecycle_witness :
    initialTokenState.accessToken = none :=
  token_cache_lifecycle.2.2.2.2.1 TokenOp.readOnly initialTokenState rfl

/-- C9: the request `getProductByCategory` builds is independent of the
category argument its declared interface accepts: it is always the GET
to the fixed path `/products/category/smartphones`. -/
theorem getProductByCategory_ignores_argument :
    (∀ c, (getProductByCategory c).url = "/products/category/smartphones")
    ∧ (∀ c1 c2, getProductByCategory c1 = getProductByCategory c2)
    ∧ (∀ c, (getProductByCategory c).method = Method.GET) :=
  ⟨fun _ => rfl, fun _ _ => rfl, fun _ => rfl⟩

/-- C10: a provided empty-string refresh token is treated as absent: a
truthy cached token is used in the request body instead, and the error
is raised exactly when provided and cached tokens are both falsy. -/
theorem refreshSession_falsy_provided :
    (∀ (st : TokenState) (e : Int) (t : String), st.refreshToken = some t → t ≠ "" →
      refreshSessionRequest st (some "") e =
        Except.ok ⟨Method.POST, "/auth/refresh", none, some t, some e⟩)
    ∧ (∀ (st : TokenState) (p : Option String) (e : Int),
        isError (refreshSessionRequest st p e) = true ↔
          isFalsyStr p = true ∧ isFalsyStr st.refreshToken = true) := by
  constructor
  · intro st e t h ht
    simp [refreshSessionRequest, h, isFalsyStr, ht]
  · intro st p e
    cases p with
    | none =>
      cases hr : st.refreshToken with
      | none => simp [refreshSessionRequest, isFalsyStr, isError, hr]
      | some s =>
        by_cases hs : s = "" <;>
          simp [refreshSessionRequest, isFalsyStr, isError, hr, hs]
    | some q =>
      by_cases hq : q = ""
      · subst hq
        cases hr : st.refreshToken with
        | none => simp [refreshSessionRequest, isFalsyStr, isError, hr]
        | some s =>
          by_cases hs : s = "" <;>
            simp [refreshSessionRequest, isFalsyStr, isError, hr, hs]
      · simp [refreshSessionRequest, isFalsyStr, isError, hq]

theorem refreshSession_falsy_provided_witness :
    refreshSessionRequest ⟨some "at", some "rt"⟩ (some "") 30 =
      Except.ok ⟨Method.POST, "/auth/refresh", none, some "rt", some 30⟩ :=
  refreshSession_falsy_provided.1 ⟨some "at", some "rt"⟩ 30 "rt" rfl (by decide)

theorem data_ne_nil_of_ne_empty {s : String} (h : s ≠ "") : s.data ≠ [] := by
  intro hd
  apply h
  cases s with
  | mk l =>
    simp only at hd
    subst hd
    rfl

theorem jsToLower_ne_empty {s : String} (h : s ≠ "") : jsToLower s ≠ "" := by
  intro he
  apply h
  have hd : (jsToLower s).data = ("" : String).data := congrArg String.data he
  simp only [jsToLower] at hd
  have hm : s.data.map Char.toLower = [] := hd
  rw [List.map_eq_nil_iff] at hm
  cases s with
  | mk l =>
    simp only at hm
    subst hm
    rfl

theorem compareAscending_empty_lt {t : String} (h : t ≠ "") :
    compareAscending (JVal.str "") (JVal.str t) = -1 := by
  have hd := data_ne_nil_of_ne_empty h
  cases ht : t.data with
  | nil => exact absurd ht hd
  | cons c cs =>
    simp [compareAscending, jsLt, ht, charListLt, Ne.symm h]

theorem jsLt_num_num (a b : Int) :
    jsLt (JVal.num a) (JVal.num b) = decide (a < b) := rfl

theorem compareAscending_num (a b : Int) :
    compareAscending (JVal.num a) (JVal.num b) =
      if a < b then -1 else if b < a then 1 else 0 := by
  simp only [compareAscending, jsLt_num_num, JVal.num.injEq, decide_eq_true_eq]
  split_ifs <;> omega

theorem compareAscending_str_num (s : String) (n m : Int) (h : strToNum s = some m) :
    compareAscending (JVal.str s) (JVal.num n) =
      if m < n then -1 else if n < m then 1 else 0 := by
  have h1 : jsLt (JVal.str s) (JVal.num n) = decide (m < n) := by
    simp [jsLt, toNumber, h]
  have h2 : jsLt (JVal.num n) (JVal.str s) = decide (n < m) := by
    simp [jsLt, toNumber, h]
  have h3 : ¬ (JVal.str s = JVal.num n) := by simp
  simp only [compareAscending, h1, h2, if_neg h3, decide_eq_true_eq]
  split_ifs <;> omega

/-- C2: normalization maps null or an absent field to the empty string,
lowercases strings, leaves numbers and booleans unchanged; a null sort
field normalizes to the empty string and compares strictly below every
non-empty string value, so it sorts first in ascending order. -/
theorem norm_behavior :
    norm none = JVal.str ""
    ∧ norm (some JVal.null) = JVal.str ""
    ∧ (∀ s, norm (some (JVal.str s)) = JVal.str (jsToLower s))
    ∧ (∀ n, norm (some (JVal.num n)) = JVal.num n)
    ∧ (∀ b, norm (some (JVal.bool b)) = JVal.bool b)
    ∧ (∀ s, s ≠ "" →
        compareAscending (norm (some JVal.null)) (norm (some (JVal.str s))) = -1) := by
  refine ⟨rfl, rfl, fun _ => rfl, fun _ => rfl, fun _ => rfl, ?_⟩
  intro s hs
  exact compareAscending_empty_lt (jsToLower_ne_empty hs)

theorem norm_behavior_witness :
    compareAscending (norm (some JVal.null)) (norm (some (JVal.str "Apple"))) = -1 :=
  norm_behavior.2.2.2.2.2 "Apple" (by decide)

/-- C5: the comparison never fails on mixed-type sort fields: the
comparator is a total function into the three outcomes, numbers compare
numerically, normalized strings compare by their lowercased forms, and a
string against a number is coerced to its numeric value. -/
theorem mixed_type_comparison :
    (∀ v w, compareAscending v w = -1 ∨ compareAscending v w = 0
      ∨ compareAscending v w = 1)
    ∧ (∀ a b : Int, compareAscending (JVal.num a) (JVal.num b) =
        if a < b then -1 else if b < a then 1 else 0)
    ∧ (∀ s t, compareAscending (norm (some (JVal.str s))) (norm (some (JVal.str t)))
        = compareAscending (JVal.str (jsToLower s)) (JVal.str (jsToLower t)))
    ∧ (∀ (s : String) (n m : Int), strToNum s = some m →
        compareAscending (JVal.str s) (JVal.num n) =
          if m < n then -1 else if n < m then 1 else 0) := by
  refine ⟨?_, compareAscending_num, fun _ _ => rfl, compareAscending_str_num⟩
  intro v w
  unfold compareAscending
  split_ifs <;> simp

theorem mixed_type_comparison_witness :
    compareAscending (JVal.str "3") (JVal.num 5) = -1 := by
  have h := mixed_type_comparison.2.2.2 "3" 5 3 (by decide)
  simpa using h

theorem compareMultiple_eq_spec (key : String) (order : SortOrder)
    (a b : Nat × Record) :
    compareMultiple key order a b =
      if specCompare key order a.2 b.2 ≠ 0 then specCompare key order a.2 b.2
      else (a.1 : Int) - (b.1 : Int) := by
  simp only [compareMultiple, specCompare]
  by_cases h0 : compareAscending (primaryKey key a.2) (primaryKey key b.2) = 0
  · simp only [h0]
    cases order <;> simp
  · have hd : (if order = SortOrder.desc
        then -compareAscending (primaryKey key a.2) (primaryKey key b.2)
        else compareAscending (primaryKey key a.2) (primaryKey key b.2)) ≠ 0 := by
      cases order <;> simp [h0]
    simp [h0, hd]

theorem mem_insertBy {cmp : α → α → Int} {x p : α} {l : List α}
    (h : p ∈ insertBy cmp x l) : p = x ∨ p ∈ l := by
  induction l with
  | nil => simpa [insertBy] using h
  | cons y ys ih =>
    simp only [insertBy] at h
    split at h
    · rcases List.mem_cons.mp h with h1 | h1
      · exact Or.inr (List.mem_cons.mpr (Or.inl h1))
      · rcases ih h1 with h2 | h2
        · exact Or.inl h2
        · exact Or.inr (List.mem_cons.mpr (Or.inr h2))
    · rcases List.mem_cons.mp h with h1 | h1
      · exact Or.inl h1
      · exact Or.inr h1

theorem mem_sortBy {cmp : α → α → Int} {p : α} {l : List α}
    (h : p ∈ sortBy cmp l) : p ∈ l := by
  induction l with
  | nil => simpa [sortBy] using h
  | cons x xs ih =>
    simp only [sortBy] at h
    rcases mem_insertBy h with h1 | h1
    · simp [h1]
    · exact List.mem_cons.mpr (Or.inr (ih h1))

theorem enumFrom_fst_ge {n : Nat} {l : List α} {p : Nat × α}
    (h : p ∈ enumFrom n l) : n ≤ p.1 := by
  induction l generalizing n with
  | nil => simp [enumFrom] at h
  | cons x xs ih =>
    simp only [enumFrom, List.mem_cons] at h
    rcases h with h1 | h1
    · subst h1; exact le_refl n
    · exact Nat.le_of_succ_le (ih h1)

theorem insertBy_map_snd (key : String) (order : SortOrder) (n : Nat) (x : Record)
    (l : List (Nat × Record)) (h : ∀ p ∈ l, n < p.1) :
    (insertBy (compareMultiple key order) (n, x) l).map Prod.snd
      = insertBy (specCompare key order) x (l.map Prod.snd) := by
  induction l with
  | nil => rfl
  | cons y ys ih =>
    have hy : n < y.1 := h y (List.mem_cons.mpr (Or.inl rfl))
    have hcond : (compareMultiple key order (n, x) y > 0)
        = (specCompare key order x y.2 > 0) := by
      rw [compareMultiple_eq_spec]
      by_cases hs : specCompare key order x y.2 = 0
      · simp only [hs]
        simp only [ne_eq, not_true_eq_false, if_false]
        have : (n : Int) - (y.1 : Int) < 0 := by
          have := hy
          omega
        simp only [eq_iff_iff]
        constructor
        · intro hgt; omega
        · intro hgt; omega
      · simp [hs]
    simp only [insertBy]
    by_cases hc : compareMultiple key order (n, x) y > 0
    · rw [if_pos hc]
      have hc2 : specCompare key order x y.2 > 0 := by rw [← hcond]; exact hc
      rw [List.map_cons, if_pos hc2]
      rw [ih (fun p hp => h p (List.mem_cons.mpr (Or.inr hp)))]
    · rw [if_neg hc]
      have hc2 : ¬ specCompare key order x y.2 > 0 := by rw [← hcond]; exact hc
      rw [List.map_cons, if_neg hc2]
      rfl

theorem sortBy_enumFrom (key : String) (order : SortOrder) (l : List Record)
    (n : Nat) :
    (sortBy (compareMultiple key order) (enumFrom n l)).map Prod.snd
      = sortBy (specCompare key order) l := by
  induction l generalizing n with
  | nil => rfl
  | cons x xs ih =>
    simp only [enumFrom, sortBy]
    rw [insertBy_map_snd]
    · rw [ih (n + 1)]
    · intro p hp
      have h1 : p ∈ enumFrom (n + 1) xs := mem_sortBy hp
      have h2 := enumFrom_fst_ge h1
      omega

theorem orderBy_eq_specStableSort (key : String) (order : SortOrder)
    (arr : List Record) :
    orderBy key order arr = specStableSort key order arr := by
  unfold orderBy specStableSort
  exact sortBy_enumFrom key order arr 0

theorem length_insertBy (cmp : α → α → Int) (x : α) (l : List α) :
    (insertBy cmp x l).length = l.length + 1 := by
  induction l with
  | nil => rfl
  | cons y ys ih =>
    simp only [insertBy]
    split <;> simp [ih]

theorem length_sortBy (cmp : α → α → Int) (l : List α) :
    (sortBy cmp l).length = l.length := by
  induction l with
  | nil => rfl
  | cons x xs ih => simp [sortBy, length_insertBy, ih]

theorem length_enumFrom (n : Nat) (l : List α) :
    (enumFrom n l).length = l.length := by
  induction l generalizing n with
  | nil => rfl
  | cons x xs ih => simp [enumFrom, ih]

theorem length_orderBy (key : String) (order : SortOrder) (arr : List Record) :
    (orderBy key order arr).length = arr.length := by
  simp [orderBy, length_sortBy, length_enumFrom]

theorem firstMismatchIdx_spec {arr sorted : List Record} {i : Nat}
    (hlen : sorted.length = arr.length)
    (h : firstMismatchIdx arr sorted = some i) :
    deepEqual (arr.getD i []) (sorted.getD i []) = false
    ∧ ∀ j, j < i → deepEqual (arr.getD j []) (sorted.getD j []) = true := by
  induction arr generalizing sorted i with
  | nil => simp [firstMismatchIdx] at h
  | cons x xs ih =>
    cases sorted with
    | nil => simp at hlen
    | cons y ys =>
      simp only [firstMismatchIdx] at h
      by_cases hd : deepEqual x y = true
      · rw [if_pos hd] at h
        obtain ⟨k, hk, hki⟩ := Option.map_eq_some'.mp h
        have hlen2 : ys.length = xs.length := by simpa using hlen
        obtain ⟨h1, h2⟩ := ih hlen2 hk
        subst hki
        refine ⟨by simpa [List.getD_cons_succ] using h1, ?_⟩
        intro j hj
        cases j with
        | zero => simpa [List.getD_cons_zero] using hd
        | succ j2 =>
          have : j2 < k := by omega
          simpa [List.getD_cons_succ] using h2 j2 this
      · rw [if_neg hd] at h
        have hi : i = 0 := by
          have := h
          simp at this
          omega
        subst hi
        refine ⟨?_, ?_⟩
        · simp only [List.getD_cons_zero]
          exact Bool.not_eq_true _ ▸ (by simpa using hd)
        · intro j hj
          omega

theorem assertSortedByKey_passed (arr : List Record) (key : String)
    (order : SortOrder) :
    (assertSortedByKey arr key order).passed
      = listDeepEqual arr (orderBy key order arr) := by
  unfold assertSortedByKey
  cases h : listDeepEqual arr (orderBy key order arr) with
  | true => simp [h]
  | false =>
    simp only [h, Bool.false_eq_true, if_false]
    split <;> rfl

theorem assertSortedByKey_mismatch {arr : List Record} {key : String}
    {order : SortOrder} {i : Nat} {e a : Record}
    (h : (assertSortedByKey arr key order).mismatch = some (i, e, a)) :
    listDeepEqual arr (orderBy key order arr) = false
    ∧ firstMismatchIdx arr (orderBy key order arr) = some i
    ∧ e = (orderBy key order arr).getD i []
    ∧ a = arr.getD i [] := by
  simp only [assertSortedByKey] at h
  cases hb : listDeepEqual arr (orderBy key order arr) with
  | true => rw [hb] at h; simp at h
  | false =>
    rw [hb] at h
    simp only [Bool.false_eq_true, if_false] at h
    cases hm : firstMismatchIdx arr (orderBy key order arr) with
    | none => rw [hm] at h; simp at h
    | some k =>
      rw [hm] at h
      simp only [Option.some.injEq, Prod.mk.injEq] at h
      obtain ⟨h1, h2, h3⟩ := h
      subst h1
      exact ⟨rfl, rfl, h2.symm, h3.symm⟩

theorem orderBy_pair (key : String) (order : SortOrder) (r1 r2 : Record) :
    orderBy key order [r1, r2] =
      if compareMultiple key order (0, r1) (1, r2) > 0 then [r2, r1]
      else [r1, r2] := by
  unfold orderBy
  simp only [enumFrom, sortBy, insertBy]
  split <;> rfl

/-- C1: the assertion passes exactly when the input is element-for-element
deeply equal to the stable sort of a copy of the input by normalized
primary value in the given direction then id ascending (the embedding is
pure, so the input is never mutated); the empty and every single-element
array always pass. -/
theorem sorted_iff_stable (arr : List Record) (key : String) (order : SortOrder) :
    ((assertSortedByKey arr key order).passed = true ↔
      listDeepEqual arr (specStableSort key order arr) = true)
    ∧ (assertSortedByKey [] key order).passed = true
    ∧ (∀ r, (assertSortedByKey [r] key order).passed = true) := by
  refine ⟨?_, ?_, ?_⟩
  · rw [assertSortedByKey_passed, orderBy_eq_specStableSort]
  · rfl
  · intro r
    rw [assertSortedByKey_passed]
    have h1 : orderBy key order [r] = [r] := rfl
    rw [h1]
    exact listDeepEqual_refl [r]

/-- C3: when two records have equal normalized primary values they are
ordered by id ascending, a missing id counting as 0, whatever the primary
direction; concretely, identical titles with ids 5 then 3 fail the
ascending-by-title assertion and pass once reordered. -/
theorem tie_break_by_id :
    (∀ r : Record, getField r "id" = none → idVal r = JVal.num 0)
    ∧ (∀ (key : String) (order : SortOrder) (r1 r2 : Record),
        compareAscending (primaryKey key r1) (primaryKey key r2) = 0 →
        compareAscending (idVal r1) (idVal r2) ≤ 0 →
        (assertSortedByKey [r1, r2] key order).passed = true)
    ∧ (∀ (key : String) (order : SortOrder) (r1 r2 : Record),
        compareAscending (primaryKey key r1) (primaryKey key r2) = 0 →
        compareAscending (idVal r1) (idVal r2) > 0 →
        deepEqual r1 r2 = false →
        (assertSortedByKey [r1, r2] key order).passed = false)
    ∧ (assertSortedByKey [[("title", JVal.str "same"), ("id", JVal.num 5)],
        [("title", JVal.str "same"), ("id", JVal.num 3)]] "title"
        SortOrder.asc).passed = false
    ∧ (assertSortedByKey [[("title", JVal.str "same"), ("id", JVal.num 3)],
        [("title", JVal.str "same"), ("id", JVal.num 5)]] "title"
        SortOrder.asc).passed = true := by
  refine ⟨fun r h => by simp [idVal, h], ?_, ?_, by decide, by decide⟩
  · intro key order r1 r2 h0 hid
    rw [assertSortedByKey_passed, orderBy_pair]
    have hc : ¬ compareMultiple key order (0, r1) (1, r2) > 0 := by
      simp only [compareMultiple, h0]
      by_cases hc1 : compareAscending (idVal r1) (idVal r2) = 0
      · simp [hc1]
      · simp only [ne_eq, not_true_eq_false, if_false, hc1, not_false_eq_true, if_true]
        omega
    rw [if_neg hc]
    exact listDeepEqual_refl [r1, r2]
  · intro key order r1 r2 h0 hid hde
    rw [assertSortedByKey_passed, orderBy_pair]
    have hc : compareMultiple key order (0, r1) (1, r2) > 0 := by
      simp only [compareMultiple, h0]
      have hc1 : compareAscending (idVal r1) (idVal r2) ≠ 0 := by omega
      simp only [ne_eq, not_true_eq_false, if_false, hc1, not_false_eq_true, if_true]
      exact hid
    rw [if_pos hc]
    simp [listDeepEqual, hde]

theorem tie_break_by_id_witness :
    (assertSortedByKey [[("title", JVal.str "a"), ("id", JVal.num 1)],
      [("title", JVal.str "a"), ("id", JVal.num 2)]] "title"
      SortOrder.asc).passed = true :=
  tie_break_by_id.2.1 "title" SortOrder.asc
    [("title", JVal.str "a"), ("id", JVal.num 1)]
    [("title", JVal.str "a"), ("id", JVal.num 2)] (by decide) (by decide)

/-- C4: a failure is raised exactly when the recomputed order differs
from the input somewhere, and is never swallowed whether or not the scan
localised a mismatch; when a diagnostic is attached it carries the lowest
mismatching index together with the expected and actual elements there. -/
theorem failure_reporting (arr : List Record) (key : String) (order : SortOrder) :
    ((assertSortedByKey arr key order).passed = false ↔
      listDeepEqual arr (orderBy key order arr) = false)
    ∧ (∀ (i : Nat) (e a : Record),
        (assertSortedByKey arr key order).mismatch = some (i, e, a) →
        (assertSortedByKey arr key order).passed = false
        ∧ e = (orderBy key order arr).getD i []
        ∧ a = arr.getD i []
        ∧ deepEqual (arr.getD i []) ((orderBy key order arr).getD i []) = false
        ∧ ∀ j, j < i →
            deepEqual (arr.getD j []) ((orderBy key order arr).getD j []) = true) := by
  constructor
  · rw [assertSortedByKey_passed]
  · intro i e a h
    obtain ⟨hld, hfm, he, ha⟩ := assertSortedByKey_mismatch h
    have hlen : (orderBy key order arr).length = arr.length :=
      length_orderBy key order arr
    obtain ⟨hne, hmin⟩ := firstMismatchIdx_spec hlen hfm
    exact ⟨by rw [assertSortedByKey_passed]; exact hld, he, ha, hne, hmin⟩

/-- C4: a failure is raised exactly when the recomputed order differs
from the input somewhere, and is never swallowed whether or not the scan
localised a mismatch; when a diagnostic is attached it carries the lowest
mismatching index together with the expected and actual elements there. -/
theorem failure_reporting_witness :
    deepEqual (([[("id", JVal.num 2)], [("id", JVal.num 1)]] : List Record).getD 0 [])
      ((orderBy "id" SortOrder.asc
        [[("id", JVal.num 2)], [("id", JVal.num 1)]]).getD 0 []) = false :=
  ((failure_reporting [[("id", JVal.num 2)], [("id", JVal.num 1)]] "id"
      SortOrder.asc).2 0 [("id", JVal.num 1)] [("id", JVal.num 2)]
      (by decide)).2.2.2.1
